import Mathlib

/-!
Shallow embedding of the task-store logic of `src/TaskList/app.py`
(a Tkinter to-do-list application).  The embedded functions mirror the
methods of class `TodoApp`: `_sort_tasks`, `refresh_listbox` (filter +
sort), `add_task`, `clear_completed`, `save_tasks` and `load_tasks`.
UI-only code (widgets, dialogs, bindings) is out of scope; dialogs that
merely display a message are modelled as boolean flags in the results.
-/

namespace TaskList

/-- A task record.  In the source a task is a Python dict with keys
`id`, `title`, `completed`, `created_at`, `updated_at`; all reads of
`completed` and `created_at` go through `dict.get` with a default, and
`updated_at` is absent until the first mutation, so those three fields
are modelled as `Option`. -/
structure Task where
  id : String
  title : String
  completed : Option Bool
  created_at : Option String
  updated_at : Option String
deriving DecidableEq, Repr

/-- Python's `str.lower()` as applied to task titles and search text:
per-character lower-casing. -/
def lowerStr (s : String) : String :=
  ⟨s.data.map Char.toLower⟩

/-- Python's `str.strip()`: remove leading and trailing whitespace. -/
def trimStr (s : String) : String :=
  ⟨((s.data.dropWhile Char.isWhitespace).reverse.dropWhile
      Char.isWhitespace).reverse⟩

/-- `t.get('completed', False)` as used throughout the source. -/
def getCompleted (t : Task) : Bool :=
  t.completed.getD false

/-- `t.get('created_at', '')` as used in `_sort_tasks`. -/
def getCreatedAt (t : Task) : String :=
  t.created_at.getD ""

/-- `self.sort_mode`, either `'date'` or `'alpha'`. -/
inductive SortMode where
  | date
  | alpha
deriving DecidableEq, Repr

/-- Sort key comparison for `'alpha'` mode: the Python call
`sorted(tasks, key=lambda t: t['title'].lower())`, i.e. ascending by
the lower-cased title. -/
def alphaLe (a b : Task) : Prop :=
  lowerStr a.title ≤ lowerStr b.title

instance : DecidableRel alphaLe := fun _ _ =>
  decidable_of_iff _ String.le_iff_toList_le.symm

/-- Sort key comparison for `'date'` mode: the Python call
`sorted(tasks, key=lambda t: t.get('created_at', ''), reverse=True)`,
i.e. descending by the (defaulted) creation timestamp. -/
def dateGe (a b : Task) : Prop :=
  getCreatedAt b ≤ getCreatedAt a

instance : DecidableRel dateGe := fun _ _ =>
  decidable_of_iff _ String.le_iff_toList_le.symm

/-- `TodoApp._sort_tasks`.  Python's `sorted` is a stable sort (with
`reverse=True` it is still stable: ties keep their input order), which
is modelled here by the stable `List.insertionSort`. -/
def sort_tasks (mode : SortMode) (tasks : List Task) : List Task :=
  match mode with
  | .alpha => tasks.insertionSort alphaLe
  | .date => tasks.insertionSort dateGe

/-- Python's substring test `needle in hay` on strings. -/
def strContains (hay needle : String) : Bool :=
  decide (needle.toList <:+: hay.toList)

/-- The filter-and-sort core of `TodoApp.refresh_listbox` (lines
297-304): trim and lower-case the search text, keep the tasks whose
lower-cased title contains it when it is non-empty (all tasks
otherwise), then sort with `_sort_tasks`.  The result is the value
stored in `self.filtered_tasks` and rendered. -/
def refresh_listbox (searchVar : String) (mode : SortMode)
    (tasks : List Task) : List Task :=
  let q := lowerStr (trimStr searchVar)
  let filtered :=
    if q = "" then tasks
    else tasks.filter (fun t => strContains (lowerStr t.title) q)
  sort_tasks mode filtered

/-- `TodoApp.add_task`.  `newId` stands for the `str(uuid.uuid4())`
call and `now` for `datetime.now().isoformat()`.  Returns the new task
list and whether `save_tasks` was called. -/
def add_task (entry : String) (newId : String) (now : String)
    (tasks : List Task) : List Task × Bool :=
  let title := trimStr entry
  if title = "" then
    (tasks, false)
  else
    (⟨newId, title, some false, some now, none⟩ :: tasks, true)

/-- `TodoApp.clear_completed` (the user-confirmed path; the
confirmation dialog belongs to the presentation layer).  Returns the
completed count, the new task list, and whether `save_tasks` was
called. -/
def clear_completed (tasks : List Task) : Nat × List Task × Bool :=
  let completedCount := tasks.countP (fun t => getCompleted t)
  if completedCount = 0 then
    (0, tasks, false)
  else
    (completedCount, tasks.filter (fun t => !(getCompleted t)), true)

/-- Contents of a file on disk: either valid JSON holding a task list,
or anything that `json.load` rejects. -/
inductive FileContent where
  | json (tasks : List Task)
  | invalid (raw : String)
deriving DecidableEq, Repr

/-- The two files the program touches: `DATA_FILE` (tasks.json) and
its `.bak` sibling; `none` means the file does not exist. -/
structure FS where
  dataFile : Option FileContent
  bakFile : Option FileContent
deriving DecidableEq, Repr

/-- `json.dump(self.tasks, f, ...)`: serializing a task list always
yields valid JSON. -/
def serialize (tasks : List Task) : FileContent :=
  .json tasks

/-- `TodoApp.save_tasks`.  If `DATA_FILE` exists, its current contents
are first copied to the `.bak` file inside a bare `try/except: pass`
(`backupFails` says whether that copy raises); then `DATA_FILE` is
overwritten with the serialized tasks. -/
def save_tasks (tasks : List Task) (backupFails : Bool) (fs : FS) : FS :=
  let fs1 :=
    match fs.dataFile with
    | some c => if backupFails then fs else { fs with bakFile := some c }
    | none => fs
  { fs1 with dataFile := some (serialize tasks) }

/-- Result of `TodoApp.load_tasks`: the in-memory task list, whether
`messagebox.showerror` was shown, and the file system afterwards. -/
structure LoadResult where
  tasks : List Task
  errorShown : Bool
  fs : FS
deriving DecidableEq, Repr

/-- `TodoApp.load_tasks`.  `readFails` says whether opening/reading
`DATA_FILE` raises an exception other than `json.JSONDecodeError`
(e.g. a permission error); `backupFails` is threaded to the
`save_tasks` calls made inside. -/
def load_tasks (readFails backupFails : Bool) (fs : FS) : LoadResult :=
  match fs.dataFile with
  | none =>
      { tasks := [], errorShown := false,
        fs := save_tasks [] backupFails fs }
  | some c =>
      if readFails then
        { tasks := [], errorShown := true, fs := fs }
      else
        match c with
        | .json ts => { tasks := ts, errorShown := false, fs := fs }
        | .invalid _ =>
            { tasks := [], errorShown := true,
              fs := save_tasks [] backupFails fs }

/-!
Reference-level model of `refresh_listbox`, needed to reason about
aliasing.  Python lists hold references to dict objects; `self.tasks`
and `self.filtered_tasks` are distinct list objects whose elements are
the same task dicts.  A heap maps addresses to task records, the store
holds a list of addresses, and `refresh_listbox` builds a new list of
the same addresses.
-/

/-- A heap of task records, indexed by address. -/
def Heap : Type :=
  Nat → Task

/-- The task records a list of addresses denotes under a heap. -/
def resolve (heap : Heap) (addrs : List Nat) : List Task :=
  addrs.map heap

/-- In-place mutation of the record stored at address `a` (what a
caller does when it mutates a dict reachable from the returned
list). -/
def heapUpdate (heap : Heap) (a : Nat) (t : Task) : Heap :=
  fun b => if b = a then t else heap b

/-- `alphaLe` lifted to addresses under a heap. -/
def alphaLeH (heap : Heap) (a b : Nat) : Prop :=
  alphaLe (heap a) (heap b)

instance (heap : Heap) : DecidableRel (alphaLeH heap) := fun _ _ =>
  decidable_of_iff _ String.le_iff_toList_le.symm

/-- `dateGe` lifted to addresses under a heap. -/
def dateGeH (heap : Heap) (a b : Nat) : Prop :=
  dateGe (heap a) (heap b)

instance (heap : Heap) : DecidableRel (dateGeH heap) := fun _ _ =>
  decidable_of_iff _ String.le_iff_toList_le.symm

/-- `refresh_listbox` at the reference level: `list(self.tasks)` and
the filtering comprehension build fresh list objects containing the
same task-dict references, which are then sorted. -/
def refresh_listbox_refs (searchVar : String) (mode : SortMode)
    (heap : Heap) (tasks : List Nat) : List Nat :=
  let q := lowerStr (trimStr searchVar)
  let filtered :=
    if q = "" then tasks
    else tasks.filter (fun a => strContains (lowerStr (heap a).title) q)
  match mode with
  | .alpha => filtered.insertionSort (alphaLeH heap)
  | .date => filtered.insertionSort (dateGeH heap)

/-- Concrete task records used in the worked examples. -/
def taskBanana : Task := ⟨"id1", "banana", some false, some "2024-01-01T00:00:01", none⟩

def taskApple : Task := ⟨"id2", "Apple", some false, some "2024-01-01T00:00:02", none⟩

def taskCherry : Task := ⟨"id3", "cherry", some false, some "2024-01-01T00:00:03", none⟩

def taskBuyMilk : Task := ⟨"id4", "Buy milk", some false, some "2024-01-01T00:00:03", none⟩

def taskWalkDog : Task := ⟨"id5", "Walk dog", some false, some "2024-01-01T00:00:02", none⟩

def taskBuyBread : Task := ⟨"id6", "Buy bread", some false, some "2024-01-01T00:00:01", none⟩

/-- A record and a mutated copy of it, used to exhibit aliasing. -/
def taskX : Task := ⟨"id7", "x", some false, some "2024-01-01T00:00:01", none⟩

def taskXRenamed : Task := ⟨"id7", "y", some false, some "2024-01-01T00:00:01", none⟩

/-- A one-record heap for the aliasing example. -/
def heap0 : Heap := fun _ => taskX

instance : IsTotal Task alphaLe := ⟨fun _ _ => le_total _ _⟩

instance : IsTrans Task alphaLe := ⟨fun _ _ _ => le_trans⟩

instance : IsTotal Task dateGe := ⟨fun _ _ => le_total _ _⟩

instance : IsTrans Task dateGe := ⟨fun _ _ _ hab hbc => le_trans hbc hab⟩

/-! Helper lemmas shared by the claim theorems. -/

/-- Membership is invariant under `_sort_tasks` (it is a permutation). -/
theorem mem_sort_tasks {mode : SortMode} {tasks : List Task} {t : Task} :
    t ∈ sort_tasks mode tasks ↔ t ∈ tasks := by
  cases mode <;> exact (List.perm_insertionSort _ _).mem_iff

/-- In the lexicographic string order, the empty string is the unique
minimum. -/
theorem le_empty_iff {s : String} : s ≤ "" ↔ s = "" := by
  constructor
  · intro h
    refine le_antisymm h ?_
    rw [String.le_iff_toList_le]
    simp
  · intro h
    exact h ▸ le_rfl

/-- Claim C2: at startup, `load_tasks` has exactly three non-success
outcomes.  File absent: the collection is initialized empty, no error
is surfaced, and the empty collection is immediately written out.
File present but not valid JSON (and readable): an error is surfaced,
the collection falls back to empty, and the file is immediately
overwritten with the empty collection.  Any other I/O failure while
the file is present: an error is surfaced, the collection falls back
to empty, and the file system is left untouched. -/
theorem load_tasks_outcomes (readFails backupFails : Bool) (fs : FS) :
    (fs.dataFile = none →
      load_tasks readFails backupFails fs =
        ⟨[], false, ⟨some (serialize []), fs.bakFile⟩⟩) ∧
    (∀ raw, fs.dataFile = some (.invalid raw) → readFails = false →
      (load_tasks readFails backupFails fs).tasks = [] ∧
      (load_tasks readFails backupFails fs).errorShown = true ∧
      (load_tasks readFails backupFails fs).fs.dataFile =
        some (serialize [])) ∧
    (∀ c, fs.dataFile = some c → readFails = true →
      load_tasks readFails backupFails fs = ⟨[], true, fs⟩) := by
  obtain ⟨d, b⟩ := fs
  cases d with
  | none => refine ⟨fun _ => rfl, ?_, ?_⟩ <;> intro c h <;> simp_all
  | some c =>
    refine ⟨by simp, ?_, ?_⟩
    · intro raw h hrf
      simp only [FS.dataFile] at h
      subst hrf
      cases h
      simp [load_tasks, save_tasks, serialize]
    · intro e h hrf
      simp only [FS.dataFile] at h
      subst hrf
      cases h
      simp [load_tasks]

/-- Witness for `load_tasks_outcomes`: loading with no data file
present initializes the empty collection and writes it out. -/
theorem load_tasks_outcomes_witness :
    load_tasks false false ⟨none, none⟩ =
      ⟨[], false, ⟨some (serialize []), none⟩⟩ :=
  (load_tasks_outcomes false false ⟨none, none⟩).1 rfl

/-- Claim C3: on every save, if the primary file exists its current
contents are copied verbatim to the `.bak` file before the primary is
overwritten, and a backup failure never blocks the primary write: the
primary file ends up holding the serialized tasks in every case. -/
theorem save_tasks_backup_policy (tasks : List Task) (fs : FS)
    (backupFails : Bool) :
    (∀ c, fs.dataFile = some c → backupFails = false →
      (save_tasks tasks backupFails fs).bakFile = some c) ∧
    (save_tasks tasks backupFails fs).dataFile = some (serialize tasks) := by
  obtain ⟨d, b⟩ := fs
  constructor
  · intro c h hbf
    subst hbf
    cases d with
    | none => cases h
    | some e => simp only [FS.dataFile] at h; cases h; simp [save_tasks]
  · cases d <;> cases backupFails <;> simp [save_tasks]

/-- Witness for `save_tasks_backup_policy`: saving over an existing
file backs up its old contents and writes the new contents. -/
theorem save_tasks_backup_policy_witness :
    (save_tasks [taskApple] false ⟨some (serialize []), none⟩).bakFile =
      some (serialize []) ∧
    (save_tasks [taskApple] false ⟨some (serialize []), none⟩).dataFile =
      some (serialize [taskApple]) :=
  ⟨(save_tasks_backup_policy [taskApple] ⟨some (serialize []), none⟩
      false).1 (serialize []) rfl rfl,
    (save_tasks_backup_policy [taskApple] ⟨some (serialize []), none⟩
      false).2⟩

/-- Claim C4: when the entered title trims to a non-empty string and
the generated id is fresh (the property `uuid.uuid4()` is trusted
for), `add_task` prepends a task carrying the fresh id, the trimmed
title, `completed = False`, `created_at` equal to the creation time
and no `updated_at`; the existing tasks follow unchanged in order and
the collection is persisted. -/
theorem add_task_nonempty (entry newId now : String) (tasks : List Task)
    (hne : trimStr entry ≠ "") (hfresh : ∀ t ∈ tasks, t.id ≠ newId) :
    ∃ newTask : Task,
      add_task entry newId now tasks = (newTask :: tasks, true) ∧
      newTask.id = newId ∧
      (∀ t ∈ tasks, t.id ≠ newTask.id) ∧
      newTask.title = trimStr entry ∧
      newTask.completed = some false ∧
      newTask.created_at = some now ∧
      newTask.updated_at = none := by
  refine ⟨⟨newId, trimStr entry, some false, some now, none⟩,
    ?_, rfl, hfresh, rfl, rfl, rfl, rfl⟩
  simp [add_task, hne]

/-- Witness for `add_task_nonempty` at the entry `"  hi "`. -/
theorem add_task_nonempty_witness :
    trimStr "  hi " ≠ "" ∧ (∀ t ∈ [taskApple], t.id ≠ "id9") ∧
    ∃ newTask : Task,
      add_task "  hi " "id9" "2024" [taskApple] =
        (newTask :: [taskApple], true) ∧
      newTask.id = "id9" ∧
      (∀ t ∈ [taskApple], t.id ≠ newTask.id) ∧
      newTask.title = trimStr "  hi " ∧
      newTask.completed = some false ∧
      newTask.created_at = some "2024" ∧
      newTask.updated_at = none :=
  ⟨by decide, by decide,
    add_task_nonempty "  hi " "id9" "2024" [taskApple]
      (by decide) (by decide)⟩

/-- Claim C5: when the entered title trims to the empty string,
`add_task` rejects the input: the collection is returned unchanged and
no save is performed. -/
theorem add_task_empty (entry newId now : String) (tasks : List Task)
    (h : trimStr entry = "") :
    add_task entry newId now tasks = (tasks, false) := by
  simp [add_task, h]

/-- Witness for `add_task_empty` at the all-blank entry `"   "`. -/
theorem add_task_empty_witness :
    trimStr "   " = "" ∧
    add_task "   " "id9" "2024" [taskApple] = ([taskApple], false) :=
  ⟨by decide, add_task_empty "   " "id9" "2024" [taskApple] (by decide)⟩

/-- Claim C6: `clear_completed` keeps exactly the tasks that are not
completed (in their prior order), returns the number of completed
tasks it removed, and triggers a save exactly when that number is
positive; with zero completed tasks it returns 0, leaves the
collection unchanged and performs no write. -/
theorem clear_completed_spec (tasks : List Task) :
    (clear_completed tasks).2.1 =
      tasks.filter (fun t => !(getCompleted t)) ∧
    (clear_completed tasks).1 =
      (tasks.filter (fun t => getCompleted t)).length ∧
    ((clear_completed tasks).2.2 = true ↔
      0 < (tasks.filter (fun t => getCompleted t)).length) := by
  by_cases h : tasks.countP (fun t => getCompleted t) = 0
  · have hall : ∀ t ∈ tasks, ¬ (getCompleted t = true) :=
      List.countP_eq_zero.mp h
    have hfilter : tasks.filter (fun t => !(getCompleted t)) = tasks := by
      rw [List.filter_eq_self]
      intro t ht
      simpa using hall t ht
    have hlen : (tasks.filter (fun t => getCompleted t)).length = 0 := by
      rw [← List.countP_eq_length_filter]
      exact h
    simp [clear_completed, h, hfilter, hlen]
  · have hlen : (tasks.filter (fun t => getCompleted t)).length =
        tasks.countP (fun t => getCompleted t) :=
      (List.countP_eq_length_filter _ _).symm
    have hpos : 0 < tasks.countP (fun t => getCompleted t) :=
      Nat.pos_of_ne_zero h
    refine ⟨?_, ?_, ?_⟩ <;> simp [clear_completed, h, hlen, hpos]

/-- Claim C7: in `'alpha'` mode the view is sorted ascending by the
lower-cased title, the sort is stable (a pair in input order with
equal keys stays in that order), the output is a permutation of the
input, and on titles banana, Apple, cherry the query with empty search
text returns them as Apple, banana, cherry. -/
theorem alpha_query_spec :
    (∀ tasks : List Task, List.Sorted alphaLe (sort_tasks .alpha tasks)) ∧
    (∀ (tasks : List Task) (a b : Task), lowerStr a.title = lowerStr b.title →
      List.Sublist [a, b] tasks →
      List.Sublist [a, b] (sort_tasks .alpha tasks)) ∧
    (∀ tasks : List Task, List.Perm (sort_tasks .alpha tasks) tasks) ∧
    refresh_listbox "" .alpha [taskBanana, taskApple, taskCherry] =
      [taskApple, taskBanana, taskCherry] := by
  refine ⟨fun tasks => List.sorted_insertionSort alphaLe tasks,
    fun tasks a b hk h => List.pair_sublist_insertionSort (le_of_eq hk) h,
    fun tasks => List.perm_insertionSort alphaLe tasks,
    by decide⟩

/-- Claim C9: in `'date'` mode the view is sorted descending by the
(defaulted) `created_at` timestamp, the sort is stable for equal
timestamps, and the output is a permutation of the input. -/
theorem date_query_spec :
    (∀ tasks : List Task, List.Sorted dateGe (sort_tasks .date tasks)) ∧
    (∀ (tasks : List Task) (a b : Task), getCreatedAt a = getCreatedAt b →
      List.Sublist [a, b] tasks →
      List.Sublist [a, b] (sort_tasks .date tasks)) ∧
    (∀ tasks : List Task, List.Perm (sort_tasks .date tasks) tasks) := by
  refine ⟨fun tasks => List.sorted_insertionSort dateGe tasks,
    fun tasks a b hk h => List.pair_sublist_insertionSort (le_of_eq hk.symm) h,
    fun tasks => List.perm_insertionSort dateGe tasks⟩

/-- Witness for `date_query_spec`: two tasks with equal timestamps
keep their input order. -/
theorem date_query_spec_witness :
    getCreatedAt taskBuyMilk = getCreatedAt taskCherry ∧
    List.Sublist [taskBuyMilk, taskCherry] [taskBuyMilk, taskCherry] ∧
    List.Sublist [taskBuyMilk, taskCherry]
      (sort_tasks .date [taskBuyMilk, taskCherry]) :=
  ⟨by decide, by decide,
    (date_query_spec.2.1 [taskBuyMilk, taskCherry] taskBuyMilk taskCherry
      (by decide) (by decide))⟩

/-- Claim C10: in `'date'` mode a record without a `created_at` key is
treated as having the empty string as its timestamp, and after any
task whose (defaulted) timestamp is empty only empty-timestamp tasks
follow, so tasks with non-empty timestamps always come first. -/
theorem date_sort_missing_created_at_last :
    (∀ t : Task, t.created_at = none → getCreatedAt t = "") ∧
    (∀ tasks : List Task, (sort_tasks .date tasks).Pairwise
      (fun a b => getCreatedAt a = "" → getCreatedAt b = "")) := by
  refine ⟨fun t h => by simp [getCreatedAt, h], fun tasks => ?_⟩
  have hs : List.Sorted dateGe (sort_tasks .date tasks) :=
    List.sorted_insertionSort dateGe tasks
  exact List.Pairwise.imp
    (fun hab ha => le_empty_iff.mp (by rw [← ha]; exact hab)) hs

/-- Claim C8: a task is in the view exactly when it is in the store
and either the trimmed lower-cased search text is empty or that text
occurs in the lower-cased title as a contiguous substring; on titles
Buy milk, Walk dog, Buy bread the query for buy in date mode returns
exactly the two Buy tasks, most recent first. -/
theorem query_filtering_spec :
    (∀ (searchVar : String) (mode : SortMode) (tasks : List Task) (t : Task),
      t ∈ refresh_listbox searchVar mode tasks ↔
        t ∈ tasks ∧ (lowerStr (trimStr searchVar) = "" ∨
          (lowerStr (trimStr searchVar)).toList <:+:
            (lowerStr t.title).toList)) ∧
    refresh_listbox "buy" .date [taskBuyMilk, taskWalkDog, taskBuyBread] =
      [taskBuyMilk, taskBuyBread] := by
  refine ⟨?_, by decide⟩
  intro searchVar mode tasks t
  by_cases hq : lowerStr (trimStr searchVar) = ""
  · simp [refresh_listbox, hq, mem_sort_tasks]
  · simp [refresh_listbox, hq, mem_sort_tasks, List.mem_filter, strContains]

/-- Counterexample to claim C1: the view computed by
`refresh_listbox` contains the store's task records themselves (the
list is a shallow copy), so mutating a returned record changes the
store's authoritative collection.  Address 0 is in the returned view,
and rewriting the record stored there changes what the store's task
list denotes. -/
theorem query_aliasing_cex :
    0 ∈ refresh_listbox_refs "" .date heap0 [0] ∧
    taskXRenamed ≠ heap0 0 ∧
    resolve (heapUpdate heap0 0 taskXRenamed) [0] ≠ resolve heap0 [0] :=
  ⟨by decide, by decide, by decide⟩

/-- Claim C1 as amended: the sequence object returned by
`refresh_listbox` is fresh, but its elements are the store's own task
records: every address in the view belongs to the store's list, and
mutating the record held at such an address (to any different value)
changes the store's authoritative task collection. -/
theorem query_result_aliases_store (searchVar : String) (mode : SortMode)
    (heap : Heap) (tasks : List Nat) (a : Nat) (t' : Task)
    (ha : a ∈ refresh_listbox_refs searchVar mode heap tasks)
    (ht : t' ≠ heap a) :
    a ∈ tasks ∧
    resolve (heapUpdate heap a t') tasks ≠ resolve heap tasks := by
  have hmem : a ∈ tasks := by
    unfold refresh_listbox_refs at ha
    by_cases hq : lowerStr (trimStr searchVar) = "" <;>
      cases mode <;>
      simp only [hq, if_true, if_false, reduceIte] at ha <;>
      have ha2 := (List.perm_insertionSort _ _).mem_iff.mp ha <;>
      first
        | exact ha2
        | exact List.mem_of_mem_filter ha2
  refine ⟨hmem, fun heq => ht ?_⟩
  simp only [resolve] at heq
  have hpt := (List.map_eq_map_iff.mp heq) a hmem
  simpa [heapUpdate] using hpt

/-- Witness for `query_result_aliases_store` at a one-task store. -/
theorem query_result_aliases_store_witness :
    0 ∈ refresh_listbox_refs "x" .alpha heap0 [0] ∧
    taskXRenamed ≠ heap0 0 ∧
    (0 ∈ [0] ∧
      resolve (heapUpdate heap0 0 taskXRenamed) [0] ≠ resolve heap0 [0]) :=
  ⟨by decide, by decide,
    query_result_aliases_store "x" .alpha heap0 [0] 0 taskXRenamed
      (by decide) (by decide)⟩

end TaskList
